import Mathlib

/-!
Verification of the custom validator-plotting pipeline in
`heat_sink_pic.py` (class `CustomValidatorPlotter` and the fin geometry
constructed in `run`).  The numeric model uses exact rationals for the
values that the Python code holds in IEEE doubles, with an explicit
`NpVal` type carrying the NaN and infinity sentinels where they matter.
-/

set_option autoImplicit false

/-- Model of a numpy double entry: a finite rational, NaN, or an infinity. -/
inductive NpVal where
  | finite : ℚ → NpVal
  | nan : NpVal
  | posinf : NpVal
  | neginf : NpVal
deriving DecidableEq, Repr

/-- Largest finite IEEE double, exactly: (2 - 2^(-52)) * 2^1023. -/
def float64Max : ℚ := 2 ^ 1024 - 2 ^ 971

/-- Model of `np.nan_to_num(v, nan=nanSub)` on one entry (default
posinf/neginf substitutions: the largest/smallest finite double).
The source calls it with `nan=np.nan` (line 175). -/
def nan_to_num (nanSub : NpVal) (v : NpVal) : NpVal :=
  match v with
  | .nan => nanSub
  | .posinf => .finite float64Max
  | .neginf => .finite (-float64Max)
  | .finite q => .finite q

/-- IEEE subtraction on `NpVal`: NaN propagates; inf - inf of the same
sign is NaN.  Models the elementwise `-` of lines 85-89. -/
def npSub : NpVal → NpVal → NpVal
  | .nan, _ => .nan
  | _, .nan => .nan
  | .finite a, .finite b => .finite (a - b)
  | .posinf, .posinf => .nan
  | .posinf, _ => .posinf
  | .neginf, .neginf => .nan
  | .neginf, _ => .neginf
  | .finite _, .posinf => .neginf
  | .finite _, .neginf => .posinf

/-- Scalar multiplication `k * v` on `NpVal` (used for the `*273.15`
temperature rescaling of lines 66 and 73). -/
def npMulS (k : ℚ) : NpVal → NpVal
  | .finite q => .finite (k * q)
  | .nan => .nan
  | .posinf => if 0 < k then .posinf else if k < 0 then .neginf else .nan
  | .neginf => if 0 < k then .neginf else if k < 0 then .posinf else .nan

/-- IEEE-style minimum with NaN propagation (model of `np.min` reduce step). -/
def npMinV : NpVal → NpVal → NpVal
  | .nan, _ => .nan
  | _, .nan => .nan
  | .finite a, .finite b => .finite (min a b)
  | .neginf, _ => .neginf
  | _, .neginf => .neginf
  | .posinf, b => b
  | a, .posinf => a

/-- IEEE-style maximum with NaN propagation (model of `np.max` reduce step). -/
def npMaxV : NpVal → NpVal → NpVal
  | .nan, _ => .nan
  | _, .nan => .nan
  | .finite a, .finite b => .finite (max a b)
  | .posinf, _ => .posinf
  | _, .posinf => .posinf
  | .neginf, b => b
  | a, .neginf => a

/-- `x.min()` over an `NpVal` array (numpy raises on an empty array;
the model returns NaN there). -/
def npMinL : List NpVal → NpVal
  | [] => .nan
  | h :: t => t.foldl npMinV h

/-- `x.max()` over an `NpVal` array. -/
def npMaxL : List NpVal → NpVal
  | [] => .nan
  | h :: t => t.foldl npMaxV h

/-- The finite part of an `NpVal`; per the interface contract (§6 of the
spec) the coordinate arrays are real-valued, so this coercion is exact on
the inputs the pipeline receives. -/
def finQ : NpVal → ℚ
  | .finite q => q
  | _ => 0

/-- `x.min()` over a rational coordinate array (0 on the empty array,
where numpy raises). -/
def npMinQ : List ℚ → ℚ
  | [] => 0
  | h :: t => t.foldl min h

/-- `x.max()` over a rational coordinate array. -/
def npMaxQ : List ℚ → ℚ
  | [] => 0
  | h :: t => t.foldl max h

/-- `np.linspace a b n` with the default inclusive endpoint:
`a + i * (b - a) / (n - 1)` for `i = 0, ..., n-1`. -/
def linspace (a b : ℚ) (n : ℕ) : List ℚ :=
  (List.range n).map (fun (i : ℕ) => a + (i : ℚ) * (b - a) / ((n : ℚ) - 1))

/-- `np.meshgrid(xs, ys, indexing="ij")`, with the two coordinate arrays
fused into one grid of points: cell `(i, j)` holds `(xs[i], ys[j])`. -/
def meshgrid (xs ys : List ℚ) : List (List (ℚ × ℚ)) :=
  xs.map (fun xv => ys.map (fun yv => (xv, yv)))

/-- The 100 x 100 grid of lines 163-167, built from the extent
`(xmin, xmax, ymin, ymax)`. -/
def gridOf (extent : ℚ × ℚ × ℚ × ℚ) : List (List (ℚ × ℚ)) :=
  meshgrid (linspace extent.1 extent.2.1 100) (linspace extent.2.2.1 extent.2.2.2 100)

/-- The fin-mask loop of lines 153-156 with the hard-coded constants of
lines 146-151 lifted to parameters (`FinSpecification` of the spec):
`mask |= (xi >= hsx) & (xi <= hsx + len) & (yi >= fin_y) & (yi <= fin_y + th)`
for each fin index `j < nrFins`, with `fin_y = startY + j * gap` (line
154) inlined, starting from the all-false mask of line 144, evaluated
pointwise at one grid cell `(xi, yi)`. -/
def finMask (nrFins : ℕ) (startY th gap len hsx : ℚ) (xi yi : ℚ) : Bool :=
  (List.range nrFins).foldl
    (fun (m : Bool) (j : ℕ) =>
      m || (decide (hsx ≤ xi) && decide (xi ≤ hsx + len)
            && decide (startY + (j : ℚ) * gap ≤ yi)
            && decide (yi ≤ startY + (j : ℚ) * gap + th)))
    false

/-- `CustomValidatorPlotter.heat_sink_mask` (lines 141-158) at one grid
cell, with its hard-coded constants: `heat_sink_x = -1`,
`heat_sink_y_start = -0.3`, `fin_thickness = 0.1`, `nr_fins = 3`,
`gap = 0.15 + 0.1`, `length = 1.0`. -/
def heat_sink_mask (xi yi : ℚ) : Bool :=
  finMask 3 (-3/10) (1/10) (15/100 + 1/10) 1 (-1) xi yi

/-- The boolean mask grid of line 169: `heat_sink_mask(xi, yi)` over the
whole meshgrid. -/
def maskOf (extent : ℚ × ℚ × ℚ × ℚ) : List (List Bool) :=
  (gridOf extent).map (fun row => row.map (fun p => heat_sink_mask p.1 p.2))

/-- Whether three points are collinear (zero cross product). -/
def collinear3 (p q r : ℚ × ℚ) : Bool :=
  decide ((q.1 - p.1) * (r.2 - p.2) - (q.2 - p.2) * (r.1 - p.1) = 0)

/-- Whether the scattered input points contain three non-collinear
points, i.e. span two dimensions.  Modelled from the spec (§4.1, §7):
`scipy.interpolate.griddata(method='linear')` is external code; per the
spec it is undefined (raises a qhull error) exactly when the input has
fewer than 3 non-collinear points. -/
def hasNonCollinearTriple (pts : List (ℚ × ℚ)) : Bool :=
  pts.any (fun p => pts.any (fun q => pts.any (fun r => ! collinear3 p q r)))

/-- One `scipy.interpolate.griddata((x, y), v, (xi, yi))` call (line 172)
evaluated over the grid.  The per-cell value is the abstract
interpolation kernel `gd` (the pipeline theorems hold for every kernel);
NaN outside the hull is one possible value of `gd`. -/
def gdGrid (gd : List ℚ → List ℚ → List NpVal → (ℚ × ℚ) → NpVal)
    (x y : List ℚ) (v : List NpVal) (grid : List (List (ℚ × ℚ))) : List (List NpVal) :=
  grid.map (fun row => row.map (gd x y v))

/-- `np.nan_to_num(val, nan=np.nan)` over a whole interpolated grid
(line 175). -/
def nanPassGrid (g : List (List NpVal)) : List (List NpVal) :=
  g.map (fun row => row.map (nan_to_num .nan))

/-- The masked assignment `arr[mask] = np.nan` of line 178 on one grid. -/
def maskSetGrid (mask : List (List Bool)) (g : List (List NpVal)) : List (List NpVal) :=
  List.zipWith (fun mr gr => List.zipWith (fun m v => if m then NpVal.nan else v) mr gr) mask g

/-- Elementwise grid subtraction (the `p_true - p_pred` etc. of lines
85-89; numpy broadcasts `-` over both axes). -/
def npSubGrid (a b : List (List NpVal)) : List (List NpVal) :=
  List.zipWith (fun ra rb => List.zipWith npSub ra rb) a b

/-- `CustomValidatorPlotter.interpolate_output` (lines 160-180):
meshgrid over the extent, the heat-sink mask computed once, one
`griddata` call per value array, the NaN-to-NaN pass, then the in-place
index loop writing NaN at masked cells.  The degenerate-input failure is
Modelled from the spec (§4.1, §7): `griddata` is external and raises a
qhull error on fewer than 3 non-collinear points, which aborts the call
before any output is produced (the first of the per-value calls already
raises, so no value array is processed). -/
def interpolate_output (gd : List ℚ → List ℚ → List NpVal → (ℚ × ℚ) → NpVal)
    (x y : List ℚ) (values : List (List NpVal)) (extent : ℚ × ℚ × ℚ × ℚ) :
    Except String (List (List (List NpVal))) :=
  let grid := gridOf extent
  let mask := maskOf extent
  if !values.isEmpty && !hasNonCollinearTriple (x.zip y) then
    .error "QhullError: fewer than 3 non-collinear input points"
  else
    let interpolated := values.map (fun v => gdGrid gd x y v grid)
    let interpolated2 := interpolated.map (fun g => nanPassGrid g)
    let final := (List.range interpolated2.length).foldl
      (fun acc i => acc.set i (maskSetGrid mask (acc.getD i []))) interpolated2
    .ok final

/-- A closed axis-aligned rectangle `(x0, y0, x1, y1)`, the region of a
`Rectangle(origin, corner)` primitive of the geometry module (membership
with inclusive bounds). -/
def pointInRect (r : ℚ × ℚ × ℚ × ℚ) (x y : ℚ) : Bool :=
  decide (r.1 ≤ x) && decide (x ≤ r.2.2.1) && decide (r.2.1 ≤ y) && decide (y ≤ r.2.2.2)

/-- The fin rectangles built in `run` (lines 188-222): first fin at
`heat_sink_origin = (-1, -0.3)` with `heat_sink_length = 1.0` and
`heat_sink_fin_thickness = 0.1`, then for `i in range(1, 3)` the origin
is shifted up by `gap = 0.15 + 0.1` and another congruent rectangle is
added to the union. -/
def runHeatSinkRects : List (ℚ × ℚ × ℚ × ℚ) :=
  let gap : ℚ := 15/100 + 1/10
  let o0 : ℚ × ℚ := (-1, -3/10)
  let first : ℚ × ℚ × ℚ × ℚ := (o0.1, o0.2, o0.1 + 1, o0.2 + 1/10)
  let res := (List.range' 1 (3 - 1)).foldl
    (fun (st : (ℚ × ℚ) × List (ℚ × ℚ × ℚ × ℚ)) _ =>
      let o : ℚ × ℚ := (st.1.1, st.1.2 + gap)
      (o, st.2 ++ [(o.1, o.2, o.1 + 1, o.2 + 1/10)]))
    (o0, [first])
  res.2

/-- Membership of a point in the `run` heat-sink union. -/
def inRunHeatSink (x y : ℚ) : Bool :=
  runHeatSinkRects.any (fun r => pointInRect r x y)

/-- A numpy array held in a heap cell: either 1-D (the scattered input
arrays) or 2-D (the interpolated grids). -/
inductive NpArr where
  | d1 : List NpVal → NpArr
  | d2 : List (List NpVal) → NpArr
deriving DecidableEq, Repr

/-- The store of array objects; an address is an index.  Used to settle
the frame property of `__call__`: Python arrays are mutable objects, so
writes are modelled against an explicit heap. -/
abbrev Heap : Type := List NpArr

/-- Dereference an address (a dangling address reads as an empty array). -/
def readH (h : Heap) (a : ℕ) : NpArr :=
  h.getD a (.d1 [])

/-- Allocate a fresh array object, returning the new heap and its address. -/
def allocH (h : Heap) (v : NpArr) : Heap × ℕ :=
  (h ++ [v], h.length)

/-- Overwrite the array object at an existing address (in-place update). -/
def writeH (h : Heap) (a : ℕ) (v : NpArr) : Heap :=
  h.set a v

/-- The elements of a 1-D array object. -/
def elems1 : NpArr → List NpVal
  | .d1 l => l
  | .d2 _ => []

/-- The rows of a 2-D array object. -/
def rows2 : NpArr → List (List NpVal)
  | .d2 r => r
  | .d1 l => [l]

/-- Allocate one fresh array per element of `l`, with contents computed
by `f` from the current heap; returns the heap and the fresh addresses in
order.  Models a Python list comprehension whose body allocates. -/
def allocFold (f : Heap → ℕ → NpArr) : Heap → List ℕ → Heap × List ℕ
  | h, [] => (h, [])
  | h, a :: rest =>
    let h1 := (allocH h (f h a)).1
    let n := (allocH h (f h a)).2
    let s := allocFold f h1 rest
    (s.1, n :: s.2)

/-- Heap-level model of `interpolate_output` (lines 160-180).  `gd` is
the abstract `griddata` kernel reading the coordinate and value array
objects.  Phase 1: one fresh grid per value array (the `griddata` list
comprehension, line 171-173); phase 2: one fresh grid per phase-1 grid
(`np.nan_to_num` copies, line 175); phase 3: the index loop of lines
177-178 writing NaN at masked cells, in place, on the phase-2 objects.
The collinear-failure path (modelled in `interpolate_output`) raises
inside `griddata` and performs no writes at all, so it is omitted here. -/
def interpolateOutputHeap (gd : NpArr → NpArr → NpArr → (ℚ × ℚ) → NpVal)
    (h : Heap) (xA yA : ℕ) (valAs : List ℕ) (extent : ℚ × ℚ × ℚ × ℚ) :
    Heap × List ℕ :=
  let grid := gridOf extent
  let mask := maskOf extent
  let s1 := allocFold
    (fun hc va => .d2 (grid.map (fun row => row.map (gd (readH hc xA) (readH hc yA) (readH hc va)))))
    h valAs
  let s2 := allocFold
    (fun hc a => .d2 (nanPassGrid (rows2 (readH hc a))))
    s1.1 s1.2
  let h3 := s2.2.foldl
    (fun hc a => writeH hc a (.d2 (maskSetGrid mask (rows2 (readH hc a)))))
    s2.1
  (h3, s2.2)

/-- Heap-level model of `CustomValidatorPlotter.__call__` (lines 53-138)
up to the array computations: extent from the coordinate arrays (lines
57-58), the `*273.15` temperature rescalings (lines 66 and 73, fresh
arrays; the `[:, 0]` slices of the other fields are views, so their
addresses are passed through unchanged), `interpolate_output`, and the
five difference arrays (lines 85-89, fresh).  The rendering loop only
reads the arrays.  Returns the final heap and the difference addresses. -/
def callHeap (gd : NpArr → NpArr → NpArr → (ℚ × ℚ) → NpVal) (h : Heap)
    (xA yA pT uT vT nuT cT pP uP vP nuP cP : ℕ) : Heap × List ℕ :=
  let xs := elems1 (readH h xA)
  let ys := elems1 (readH h yA)
  let extent : ℚ × ℚ × ℚ × ℚ :=
    (finQ (npMinL xs), finQ (npMaxL xs), finQ (npMinL ys), finQ (npMaxL ys))
  let a1 := allocH h (.d1 ((elems1 (readH h cT)).map (npMulS (5463/20))))
  let a2 := allocH a1.1 (.d1 ((elems1 (readH a1.1 cP)).map (npMulS (5463/20))))
  let s := interpolateOutputHeap gd a2.1 xA yA
    [pT, uT, vT, nuT, a1.2, pP, uP, vP, nuP, a2.2] extent
  let sd := allocFold
    (fun hc i => .d2 (npSubGrid (rows2 (readH hc (s.2.getD i 0))) (rows2 (readH hc (s.2.getD (i + 5) 0)))))
    s.1 [0, 1, 2, 3, 4]
  sd

/-! ### Helper lemmas -/

theorem list_foldl_or {α : Type _} (p : α → Bool) :
    ∀ (l : List α) (b : Bool), l.foldl (fun m j => m || p j) b = (b || l.any p) := by
  intro l
  induction l with
  | nil => intro b; simp
  | cons a t ih => intro b; simp [List.foldl_cons, ih, Bool.or_assoc]

theorem finMask_iff (n : ℕ) (sy th g len hx xi yi : ℚ) :
    finMask n sy th g len hx xi yi = true ↔
      ∃ j : ℕ, j < n ∧ hx ≤ xi ∧ xi ≤ hx + len ∧
        sy + (j : ℚ) * g ≤ yi ∧ yi ≤ sy + (j : ℚ) * g + th := by
  rw [finMask, list_foldl_or
    (fun j : ℕ => decide (hx ≤ xi) && decide (xi ≤ hx + len)
      && decide (sy + (j : ℚ) * g ≤ yi) && decide (yi ≤ sy + (j : ℚ) * g + th))]
  simp [List.any_eq_true, List.mem_range, and_assoc]

theorem runHeatSinkRects_eval :
    runHeatSinkRects = [(-1, -3/10, 0, -1/5), (-1, -1/20, 0, 1/20), (-1, 1/5, 0, 3/10)] := by
  norm_num [runHeatSinkRects, List.range', Prod.ext_iff]

theorem inRunHeatSink_iff (x y : ℚ) :
    inRunHeatSink x y = true ↔
      ((-1 ≤ x ∧ x ≤ 0) ∧ (-3/10 ≤ y ∧ y ≤ -1/5)) ∨
      ((-1 ≤ x ∧ x ≤ 0) ∧ (-1/20 ≤ y ∧ y ≤ 1/20)) ∨
      ((-1 ≤ x ∧ x ≤ 0) ∧ (1/5 ≤ y ∧ y ≤ 3/10)) := by
  simp [inRunHeatSink, runHeatSinkRects_eval, pointInRect, and_assoc]

/-! ### Claim theorems -/

/-- C1 counterexample: the claim asserts that the cell at
(x = -0.5, y = 0.0) is masked false; in the code it is masked true (the
middle fin spans y from -0.05 to 0.05), so the claimed conjunction is
false. -/
theorem heat_sink_mask_c1_counterexample :
    ¬ (heat_sink_mask (-1/2) (-1/4) = true ∧ heat_sink_mask (-1/2) 0 = false) := by
  intro h
  have h2 : heat_sink_mask (-1/2) 0 = true := by
    norm_num [heat_sink_mask, finMask, List.range_succ]
  rw [h.2] at h2
  exact Bool.noConfusion h2

/-- C1 (amended): with the hard-coded parameters of `heat_sink_mask`
(nr_fins = 3, start_y = -0.3, thickness = 0.1, gap = 0.25, length = 1.0,
heat_sink_x = -1), the cell at (x = -0.5, y = -0.25) is masked true, the
cell at (x = -0.5, y = 0.0) is also masked true (it lies inside the
middle fin), and a cell in the gap between fins, (x = -0.5, y = 0.1), is
masked false. -/
theorem heat_sink_mask_values :
    heat_sink_mask (-1/2) (-1/4) = true ∧
    heat_sink_mask (-1/2) 0 = true ∧
    heat_sink_mask (-1/2) (1/10) = false := by
  refine ⟨?_, ?_, ?_⟩ <;> norm_num [heat_sink_mask, finMask, List.range_succ]

/-- C3: the fin mask marks a cell true iff some fin index j < nr_fins
puts the cell inside the closed rectangle
[heat_sink_x, heat_sink_x + length] x [fin_y, fin_y + thickness] with
fin_y = start_y + j * gap — an inclusive-bounds OR across all fins. -/
theorem finMask_characterization (n : ℕ) (sy th g len hx xi yi : ℚ) :
    finMask n sy th g len hx xi yi = true ↔
      ∃ j : ℕ, j < n ∧ hx ≤ xi ∧ xi ≤ hx + len ∧
        sy + (j : ℚ) * g ≤ yi ∧ yi ≤ sy + (j : ℚ) * g + th :=
  finMask_iff n sy th g len hx xi yi

/-- C7: the fin mask is monotone in the number of fins — every cell
masked true with n1 fins is masked true with n2 >= n1 fins, all other
parameters fixed. -/
theorem finMask_monotone (n1 n2 : ℕ) (sy th g len hx xi yi : ℚ)
    (hn : n1 ≤ n2) (h : finMask n1 sy th g len hx xi yi = true) :
    finMask n2 sy th g len hx xi yi = true := by
  rcases (finMask_iff n1 sy th g len hx xi yi).mp h with ⟨j, hj, hrest⟩
  exact (finMask_iff n2 sy th g len hx xi yi).mpr ⟨j, lt_of_lt_of_le hj hn, hrest⟩

/-- Witness for C7 at nr_fins 1 <= 3 and the cell (-0.5, -0.25) inside
the first fin. -/
theorem finMask_monotone_witness :
    finMask 3 (-3/10) (1/10) (15/100 + 1/10) 1 (-1) (-1/2) (-1/4) = true :=
  finMask_monotone 1 3 (-3/10) (1/10) (15/100 + 1/10) 1 (-1) (-1/2) (-1/4)
    (by norm_num)
    (by norm_num [finMask, List.range_succ])

/-- C8: the region masked by `heat_sink_mask` coincides pointwise with
the union of the fin rectangles built for the physical heat-sink
geometry in `run` — the two hard-coded parameter sets describe identical
regions of the plane. -/
theorem heat_sink_mask_eq_run_geometry (x y : ℚ) :
    heat_sink_mask x y = inRunHeatSink x y := by
  rw [Bool.eq_iff_iff, heat_sink_mask, finMask_iff, inRunHeatSink_iff]
  constructor
  · rintro ⟨j, hj, h1, h2, h3, h4⟩
    interval_cases j
    · exact Or.inl ⟨⟨by linarith, by linarith⟩, by constructor <;> push_cast at h3 h4 <;> linarith⟩
    · exact Or.inr (Or.inl ⟨⟨by linarith, by linarith⟩, by constructor <;> push_cast at h3 h4 <;> linarith⟩)
    · exact Or.inr (Or.inr ⟨⟨by linarith, by linarith⟩, by constructor <;> push_cast at h3 h4 <;> linarith⟩)
  · rintro (⟨⟨h1, h2⟩, h3, h4⟩ | ⟨⟨h1, h2⟩, h3, h4⟩ | ⟨⟨h1, h2⟩, h3, h4⟩)
    · exact ⟨0, by norm_num, by linarith, by linarith, by push_cast; linarith, by push_cast; linarith⟩
    · exact ⟨1, by norm_num, by linarith, by linarith, by push_cast; linarith, by push_cast; linarith⟩
    · exact ⟨2, by norm_num, by linarith, by linarith, by push_cast; linarith, by push_cast; linarith⟩

theorem nan_to_num_nan_id (v : NpVal) (h1 : v ≠ NpVal.posinf) (h2 : v ≠ NpVal.neginf) :
    nan_to_num .nan v = v := by
  cases v <;> simp_all [nan_to_num]

theorem map_id_of_mem {α : Type _} (f : α → α) :
    ∀ (l : List α), (∀ x ∈ l, f x = x) → l.map f = l := by
  intro l
  induction l with
  | nil => simp
  | cons a t ih =>
    intro h
    simp only [List.map_cons, h a (List.mem_cons_self a t),
      ih (fun x hx => h x (List.mem_cons_of_mem a hx))]

theorem getD_zipWith {α β γ : Type _} (f : α → β → γ) (d1 : α) (d2 : β) (d : γ)
    (h1 : ∀ x, f x d2 = d) (h2 : ∀ y, f d1 y = d) :
    ∀ (l1 : List α) (l2 : List β) (n : ℕ),
      (List.zipWith f l1 l2).getD n d = f (l1.getD n d1) (l2.getD n d2) := by
  intro l1
  induction l1 with
  | nil =>
    intro l2 n
    simp [List.getD_eq_getD_get?, h2]
  | cons a t ih =>
    intro l2 n
    cases l2 with
    | nil => simp [List.zipWith_nil, List.getD_eq_getD_get?, h1]
    | cons b t2 =>
      cases n with
      | zero => simp
      | succ m => simpa using ih t2 m

theorem npSub_nan_left (v : NpVal) : npSub NpVal.nan v = NpVal.nan := by
  cases v <;> rfl

theorem npSub_nan_right (v : NpVal) : npSub v NpVal.nan = NpVal.nan := by
  cases v <;> rfl

/-- C5: the sentinel pass-through `np.nan_to_num(val, nan=np.nan)` of
line 175 is the identity on every grid holding only finite values and
NaN: NaN cells stay NaN (they are not zeroed or reinterpreted) and
finite cells are unchanged.  (Only the infinities, which linear
interpolation of real inputs never produces, would be substituted.) -/
theorem nanPassGrid_id (g : List (List NpVal))
    (h : ∀ row ∈ g, ∀ v ∈ row, v ≠ NpVal.posinf ∧ v ≠ NpVal.neginf) :
    nanPassGrid g = g := by
  unfold nanPassGrid
  apply map_id_of_mem
  intro row hrow
  apply map_id_of_mem
  intro v hv
  exact nan_to_num_nan_id v (h row hrow v hv).1 (h row hrow v hv).2

/-- Witness for C5: a grid with one NaN cell and one finite cell passes
through unchanged. -/
theorem nanPassGrid_id_witness :
    nanPassGrid [[NpVal.nan, NpVal.finite 3]] = [[NpVal.nan, NpVal.finite 3]] :=
  nanPassGrid_id [[NpVal.nan, NpVal.finite 3]] (by decide)

/-- C2 counterexample: with reference (true) value 3 and predicted value
1 at the only grid cell, the difference-panel value computed by lines
85-89 is 3 - 1 = 2 (reference minus predicted), not the claimed
predicted minus reference = 1 - 3 = -2. -/
theorem npSubGrid_c2_counterexample :
    npSubGrid [[NpVal.finite 3]] [[NpVal.finite 1]] = [[NpVal.finite 2]] ∧
    ¬ npSubGrid [[NpVal.finite 3]] [[NpVal.finite 1]] = [[NpVal.finite (1 - 3)]] := by
  constructor
  · show [[npSub (NpVal.finite 3) (NpVal.finite 1)]] = [[NpVal.finite 2]]
    norm_num [npSub]
  · show ¬ [[npSub (NpVal.finite 3) (NpVal.finite 1)]] = [[NpVal.finite (1 - 3)]]
    norm_num [npSub]

/-- C2 (amended): the difference grids of lines 85-89 are elementwise
`true - pred`: at every cell (out-of-range indices reading as NaN) the
difference-panel value is `npSub` of the reference (true) cell and the
predicted cell — the reference value minus the predicted value when both
are defined, and NaN whenever either input is NaN. -/
theorem npSubGrid_elementwise :
    (∀ (tG pG : List (List NpVal)) (i j : ℕ),
        ((npSubGrid tG pG).getD i []).getD j NpVal.nan
          = npSub ((tG.getD i []).getD j NpVal.nan) ((pG.getD i []).getD j NpVal.nan))
    ∧ (∀ a b : ℚ, npSub (NpVal.finite a) (NpVal.finite b) = NpVal.finite (a - b))
    ∧ (∀ v : NpVal, npSub NpVal.nan v = NpVal.nan)
    ∧ (∀ v : NpVal, npSub v NpVal.nan = NpVal.nan) := by
  refine ⟨?_, fun a b => rfl, npSub_nan_left, npSub_nan_right⟩
  intro tG pG i j
  rw [npSubGrid]
  rw [getD_zipWith (fun ra rb => List.zipWith npSub ra rb) [] [] []
    (fun x => List.zipWith_nil npSub x) (fun y => rfl) tG pG i]
  rw [getD_zipWith npSub NpVal.nan NpVal.nan NpVal.nan npSub_nan_right npSub_nan_left]

theorem getD_set_self {α : Type _} (l : List α) (k : ℕ) (v d : α) (h : k < l.length) :
    (l.set k v).getD k d = v := by
  rw [List.getD_eq_getD_get?, List.get?_set_eq_of_lt _ h]
  rfl

theorem getD_set_ne {α : Type _} (l : List α) (k m : ℕ) (v d : α) (h : k ≠ m) :
    (l.set k v).getD m d = l.getD m d := by
  rw [List.getD_eq_getD_get?, List.get?_set_ne _ _ h, ← List.getD_eq_getD_get?]

theorem setLoop_getD {α : Type _} (f : α → α) (d : α) (l : List α) :
    ∀ k : ℕ,
      ((List.range k).foldl (fun acc i => acc.set i (f (acc.getD i d))) l).length = l.length ∧
      ∀ m : ℕ, m < l.length →
        ((List.range k).foldl (fun acc i => acc.set i (f (acc.getD i d))) l).getD m d
          = if m < k then f (l.getD m d) else l.getD m d := by
  intro k
  induction k with
  | zero => simp
  | succ k ih =>
    obtain ⟨hlen, hget⟩ := ih
    constructor
    · rw [List.range_succ, List.foldl_append]
      simp only [List.foldl_cons, List.foldl_nil, List.length_set]
      exact hlen
    · intro m hm
      rw [List.range_succ, List.foldl_append]
      simp only [List.foldl_cons, List.foldl_nil]
      by_cases hmk : m = k
      · subst hmk
        rw [getD_set_self _ _ _ _ (hlen ▸ hm), hget m hm]
        simp
      · rw [getD_set_ne _ _ _ _ _ (fun hh => hmk hh.symm), hget m hm]
        rcases Nat.lt_trichotomy m k with hlt | heq | hgt
        · simp [hlt, Nat.lt_succ_of_lt hlt]
        · exact absurd heq hmk
        · have h1 : ¬ m < k := Nat.not_lt.mpr (Nat.le_of_lt hgt)
          have h2 : ¬ m < k + 1 := Nat.not_lt.mpr hgt
          simp [h1, h2]

theorem setLoop_eq_map {α : Type _} (f : α → α) (d : α) (l : List α) :
    (List.range l.length).foldl (fun acc i => acc.set i (f (acc.getD i d))) l = l.map f := by
  obtain ⟨hlen, hget⟩ := setLoop_getD f d l l.length
  apply List.ext_getElem (by rw [hlen, List.length_map])
  intro n h1 h2
  have hn : n < l.length := by simpa using h2
  have hv := hget n hn
  rw [if_pos hn] at hv
  rw [← List.getD_eq_getElem _ d h1, hv, List.getElem_map, ← List.getD_eq_getElem _ d]

theorem interpolate_output_eq_map (gd : List ℚ → List ℚ → List NpVal → (ℚ × ℚ) → NpVal)
    (x y : List ℚ) (values : List (List NpVal)) (extent : ℚ × ℚ × ℚ × ℚ)
    (h : hasNonCollinearTriple (x.zip y) = true) :
    interpolate_output gd x y values extent
      = .ok (values.map (fun v =>
          maskSetGrid (maskOf extent) (nanPassGrid (gdGrid gd x y v (gridOf extent))))) := by
  rw [interpolate_output]
  simp only [h, Bool.not_true, Bool.and_false, if_neg (by simp : ¬ ((!values.isEmpty && false) = true))]
  rw [show (values.map (fun v => gdGrid gd x y v (gridOf extent))).map (fun g => nanPassGrid g)
        = values.map (fun v => nanPassGrid (gdGrid gd x y v (gridOf extent))) from by
      rw [List.map_map]; rfl]
  rw [setLoop_eq_map (maskSetGrid (maskOf extent)) []]
  rw [List.map_map]
  rfl

theorem linspace_length (a b : ℚ) (n : ℕ) : (linspace a b n).length = n := by
  simp [linspace]

theorem gridOf_length (e : ℚ × ℚ × ℚ × ℚ) : (gridOf e).length = 100 := by
  simp [gridOf, meshgrid, linspace_length]

theorem gridOf_row_length (e : ℚ × ℚ × ℚ × ℚ) {row : List (ℚ × ℚ)} (h : row ∈ gridOf e) :
    row.length = 100 := by
  simp only [gridOf, meshgrid, List.mem_map] at h
  obtain ⟨xv, _, rfl⟩ := h
  simp [linspace_length]

theorem maskOf_length (e : ℚ × ℚ × ℚ × ℚ) : (maskOf e).length = 100 := by
  simp [maskOf, gridOf_length]

theorem maskOf_row_length (e : ℚ × ℚ × ℚ × ℚ) {row : List Bool} (h : row ∈ maskOf e) :
    row.length = 100 := by
  simp only [maskOf, List.mem_map] at h
  obtain ⟨r, hr, rfl⟩ := h
  simp [gridOf_row_length e hr]

theorem exists_of_mem_zipWith {α β γ : Type _} {f : α → β → γ} :
    ∀ {l1 : List α} {l2 : List β} {c : γ},
      c ∈ List.zipWith f l1 l2 → ∃ a b, a ∈ l1 ∧ b ∈ l2 ∧ c = f a b := by
  intro l1
  induction l1 with
  | nil => intro l2 c h; simp at h
  | cons a t ih =>
    intro l2 c h
    cases l2 with
    | nil => simp [List.zipWith_nil] at h
    | cons b t2 =>
      rw [List.zipWith_cons_cons] at h
      rcases List.mem_cons.mp h with hc | hc
      · exact ⟨a, b, List.mem_cons_self _ _, List.mem_cons_self _ _, hc⟩
      · obtain ⟨a1, b1, ha1, hb1, rfl⟩ := ih hc
        exact ⟨a1, b1, List.mem_cons_of_mem _ ha1, List.mem_cons_of_mem _ hb1, rfl⟩

theorem foldl_min_le_init (t : List ℚ) : ∀ h : ℚ, t.foldl min h ≤ h := by
  induction t with
  | nil => intro h; simp
  | cons b t ih =>
    intro h
    calc (b :: t).foldl min h = t.foldl min (min h b) := by simp
    _ ≤ min h b := ih (min h b)
    _ ≤ h := min_le_left h b

theorem foldl_min_le_mem (t : List ℚ) : ∀ (h a : ℚ), a ∈ t → t.foldl min h ≤ a := by
  induction t with
  | nil => intro h a ha; simp at ha
  | cons b t ih =>
    intro h a ha
    rcases List.mem_cons.mp ha with rfl | ha
    · calc (a :: t).foldl min h = t.foldl min (min h a) := by simp
      _ ≤ min h a := foldl_min_le_init t (min h a)
      _ ≤ a := min_le_right h a
    · exact ih (min h b) a ha

theorem le_foldl_max_init (t : List ℚ) : ∀ h : ℚ, h ≤ t.foldl max h := by
  induction t with
  | nil => intro h; simp
  | cons b t ih =>
    intro h
    calc h ≤ max h b := le_max_left h b
    _ ≤ t.foldl max (max h b) := ih (max h b)
    _ = (b :: t).foldl max h := by simp

theorem le_foldl_max_mem (t : List ℚ) : ∀ (h a : ℚ), a ∈ t → a ≤ t.foldl max h := by
  induction t with
  | nil => intro h a ha; simp at ha
  | cons b t ih =>
    intro h a ha
    rcases List.mem_cons.mp ha with rfl | ha
    · calc a ≤ max h a := le_max_right h a
      _ ≤ t.foldl max (max h a) := le_foldl_max_init t (max h a)
      _ = (a :: t).foldl max h := by simp
    · exact ih (max h b) a ha

theorem npMinQ_le_mem (l : List ℚ) (a : ℚ) (ha : a ∈ l) : npMinQ l ≤ a := by
  cases l with
  | nil => simp at ha
  | cons h t =>
    rcases List.mem_cons.mp ha with rfl | ha
    · exact foldl_min_le_init t a
    · exact foldl_min_le_mem t h a ha

theorem mem_le_npMaxQ (l : List ℚ) (a : ℚ) (ha : a ∈ l) : a ≤ npMaxQ l := by
  cases l with
  | nil => simp at ha
  | cons h t =>
    rcases List.mem_cons.mp ha with rfl | ha
    · exact le_foldl_max_init t a
    · exact le_foldl_max_mem t h a ha

theorem all_eq_of_min_eq_max (l : List ℚ) (heq : npMinQ l = npMaxQ l) :
    ∀ a ∈ l, a = npMinQ l := by
  intro a ha
  have h1 := npMinQ_le_mem l a ha
  have h2 := mem_le_npMaxQ l a ha
  rw [← heq] at h2
  exact le_antisymm h2 h1

theorem hasNonCollinearTriple_const_x (pts : List (ℚ × ℚ)) (c : ℚ)
    (h : ∀ p ∈ pts, p.1 = c) : hasNonCollinearTriple pts = false := by
  rw [hasNonCollinearTriple, List.any_eq_false]
  intro p hp
  rw [Bool.not_eq_true, List.any_eq_false]
  intro q hq
  rw [Bool.not_eq_true, List.any_eq_false]
  intro r hr
  have hcol : collinear3 p q r = true := by
    rw [collinear3, decide_eq_true_eq, h p hp, h q hq, h r hr]
    ring
  simp [hcol]

theorem hasNonCollinearTriple_const_y (pts : List (ℚ × ℚ)) (c : ℚ)
    (h : ∀ p ∈ pts, p.2 = c) : hasNonCollinearTriple pts = false := by
  rw [hasNonCollinearTriple, List.any_eq_false]
  intro p hp
  rw [Bool.not_eq_true, List.any_eq_false]
  intro q hq
  rw [Bool.not_eq_true, List.any_eq_false]
  intro r hr
  have hcol : collinear3 p q r = true := by
    rw [collinear3, decide_eq_true_eq, h p hp, h q hq, h r hr]
    ring
  simp [hcol]

/-- C4: when the bounding extent derived from the coordinates is
degenerate — zero width (min x = max x) or zero height (min y = max y) —
the interpolation call fails with an explicit error (the modelled
`griddata` qhull failure on collinear input) instead of producing a
malformed partial output. -/
theorem interpolate_output_degenerate (gd : List ℚ → List ℚ → List NpVal → (ℚ × ℚ) → NpVal)
    (x y : List ℚ) (values : List (List NpVal)) (extent : ℚ × ℚ × ℚ × ℚ)
    (hvals : values ≠ [])
    (hdeg : npMinQ x = npMaxQ x ∨ npMinQ y = npMaxQ y) :
    ∃ e, interpolate_output gd x y values extent = .error e := by
  have hfalse : hasNonCollinearTriple (x.zip y) = false := by
    rcases hdeg with h | h
    · apply hasNonCollinearTriple_const_x _ (npMinQ x)
      intro p hp
      exact all_eq_of_min_eq_max x h p.1 (List.of_mem_zip hp).1
    · apply hasNonCollinearTriple_const_y _ (npMinQ y)
      intro p hp
      exact all_eq_of_min_eq_max y h p.2 (List.of_mem_zip hp).2
  refine ⟨"QhullError: fewer than 3 non-collinear input points", ?_⟩
  rw [interpolate_output]
  have hne : values.isEmpty = false := by
    cases values with
    | nil => exact absurd rfl hvals
    | cons a t => rfl
  rw [if_pos]
  rw [hne, hfalse]
  rfl

/-- Witness for C4: three points sharing the x coordinate 1 (zero-width
extent) make the call return an error. -/
theorem interpolate_output_degenerate_witness :
    ∃ e, interpolate_output (fun _ _ _ _ => NpVal.nan) [1, 1, 1] [0, 1, 2]
      [[NpVal.finite 0]] (1, 1, 0, 2) = .error e :=
  interpolate_output_degenerate (fun _ _ _ _ => NpVal.nan) [1, 1, 1] [0, 1, 2]
    [[NpVal.finite 0]] (1, 1, 0, 2)
    (by simp)
    (Or.inl (by norm_num [npMinQ, npMaxQ]))

/-- C6: for every scattered input containing 3 non-collinear points (and
any interpolation kernel), `interpolate_output` succeeds and every
returned interpolated field has shape exactly 100 x 100, the configured
grid resolution. -/
theorem interpolate_output_shape (gd : List ℚ → List ℚ → List NpVal → (ℚ × ℚ) → NpVal)
    (x y : List ℚ) (values : List (List NpVal)) (extent : ℚ × ℚ × ℚ × ℚ)
    (h : hasNonCollinearTriple (x.zip y) = true) :
    ∃ gs, interpolate_output gd x y values extent = .ok gs ∧
      gs.length = values.length ∧
      ∀ g ∈ gs, g.length = 100 ∧ ∀ row ∈ g, row.length = 100 := by
  refine ⟨_, interpolate_output_eq_map gd x y values extent h, by simp, ?_⟩
  intro g hg
  obtain ⟨v, _, rfl⟩ := List.mem_map.mp hg
  constructor
  · rw [maskSetGrid, List.length_zipWith, maskOf_length]
    simp [nanPassGrid, gdGrid, gridOf_length]
  · intro row hrow
    rw [maskSetGrid] at hrow
    obtain ⟨mr, gr, hmr, hgr, rfl⟩ := exists_of_mem_zipWith hrow
    have h1 : mr.length = 100 := maskOf_row_length extent hmr
    have h2 : gr.length = 100 := by
      rw [nanPassGrid] at hgr
      obtain ⟨gr0, hgr0, rfl⟩ := List.mem_map.mp hgr
      rw [gdGrid] at hgr0
      obtain ⟨row0, hrow0, rfl⟩ := List.mem_map.mp hgr0
      simp [gridOf_row_length extent hrow0]
    rw [List.length_zipWith, h1, h2]
    simp

/-- Witness for C6: three non-collinear points, one value array. -/
theorem interpolate_output_shape_witness :
    ∃ gs, interpolate_output (fun _ _ _ _ => NpVal.nan) [0, 1, 0] [0, 0, 1]
        [[NpVal.finite 1, NpVal.finite 2, NpVal.finite 3]] (0, 1, 0, 1) = .ok gs ∧
      gs.length = [[NpVal.finite 1, NpVal.finite 2, NpVal.finite 3]].length ∧
      ∀ g ∈ gs, g.length = 100 ∧ ∀ row ∈ g, row.length = 100 :=
  interpolate_output_shape (fun _ _ _ _ => NpVal.nan) [0, 1, 0] [0, 0, 1]
    [[NpVal.finite 1, NpVal.finite 2, NpVal.finite 3]] (0, 1, 0, 1)
    (by norm_num [hasNonCollinearTriple, collinear3, List.zip])

/-- C10: on every successful call, `interpolate_output` returns exactly
one interpolated grid per input value array, in input order (the result
is a `List.map` over the inputs), with the one exclusion mask
`maskOf extent` — computed once from the grid coordinates only,
independently of every field value — applied identically (via
`maskSetGrid`) to every returned grid. -/
theorem interpolate_output_per_value (gd : List ℚ → List ℚ → List NpVal → (ℚ × ℚ) → NpVal)
    (x y : List ℚ) (values : List (List NpVal)) (extent : ℚ × ℚ × ℚ × ℚ)
    (h : hasNonCollinearTriple (x.zip y) = true) :
    interpolate_output gd x y values extent
      = .ok (values.map (fun v =>
          maskSetGrid (maskOf extent) (nanPassGrid (gdGrid gd x y v (gridOf extent))))) :=
  interpolate_output_eq_map gd x y values extent h

/-- Witness for C10: two value arrays over a non-degenerate triangle. -/
theorem interpolate_output_per_value_witness :
    interpolate_output (fun _ _ v _ => v.getD 0 NpVal.nan) [0, 2, 0] [0, 0, 2]
        [[NpVal.finite 5], [NpVal.nan]] (0, 2, 0, 2)
      = .ok ([[NpVal.finite 5], [NpVal.nan]].map (fun v =>
          maskSetGrid (maskOf (0, 2, 0, 2))
            (nanPassGrid (gdGrid (fun _ _ v _ => v.getD 0 NpVal.nan) [0, 2, 0] [0, 0, 2] v
              (gridOf (0, 2, 0, 2)))))) :=
  interpolate_output_per_value (fun _ _ v _ => v.getD 0 NpVal.nan) [0, 2, 0] [0, 0, 2]
    [[NpVal.finite 5], [NpVal.nan]] (0, 2, 0, 2)
    (by norm_num [hasNonCollinearTriple, collinear3, List.zip])

theorem readH_append (h t : Heap) (a : ℕ) (ha : a < h.length) :
    readH (h ++ t) a = readH h a := by
  rw [readH, readH, List.getD_append _ _ _ _ ha]

theorem allocH_read (h : Heap) (v : NpArr) (a : ℕ) (ha : a < h.length) :
    readH (allocH h v).1 a = readH h a :=
  readH_append h [v] a ha

theorem allocH_len (h : Heap) (v : NpArr) : h.length ≤ (allocH h v).1.length := by
  simp [allocH]

theorem allocFold_len (f : Heap → ℕ → NpArr) :
    ∀ (l : List ℕ) (h : Heap), h.length ≤ (allocFold f h l).1.length := by
  intro l
  induction l with
  | nil => intro h; simp [allocFold]
  | cons b rest ih =>
    intro h
    simp only [allocFold]
    calc h.length ≤ (allocH h (f h b)).1.length := allocH_len h (f h b)
    _ ≤ _ := ih _

theorem allocFold_read (f : Heap → ℕ → NpArr) :
    ∀ (l : List ℕ) (h : Heap) (a : ℕ), a < h.length →
      readH (allocFold f h l).1 a = readH h a := by
  intro l
  induction l with
  | nil => intro h a _; simp [allocFold]
  | cons b rest ih =>
    intro h a ha
    simp only [allocFold]
    rw [ih _ a (lt_of_lt_of_le ha (allocH_len h (f h b)))]
    exact allocH_read h (f h b) a ha

theorem allocFold_addrs (f : Heap → ℕ → NpArr) :
    ∀ (l : List ℕ) (h : Heap) (n : ℕ),
      n ∈ (allocFold f h l).2 → h.length ≤ n := by
  intro l
  induction l with
  | nil => intro h n hn; simp [allocFold] at hn
  | cons b rest ih =>
    intro h n hn
    simp only [allocFold] at hn
    rcases List.mem_cons.mp hn with rfl | hn
    · simp [allocH]
    · calc h.length ≤ (allocH h (f h b)).1.length := allocH_len h (f h b)
      _ ≤ n := ih _ n hn

theorem writeH_read_ne (h : Heap) (k a : ℕ) (v : NpArr) (hne : k ≠ a) :
    readH (writeH h k v) a = readH h a := by
  rw [writeH, readH, readH, getD_set_ne _ _ _ _ _ hne]

theorem writeFold_read (g : Heap → ℕ → NpArr) (N : ℕ) :
    ∀ (ns : List ℕ) (h : Heap) (a : ℕ), a < N → (∀ n ∈ ns, N ≤ n) →
      readH (ns.foldl (fun hc n => writeH hc n (g hc n)) h) a = readH h a := by
  intro ns
  induction ns with
  | nil => intro h a _ _; simp
  | cons b rest ih =>
    intro h a ha hns
    simp only [List.foldl_cons]
    rw [ih _ a ha (fun n hn => hns n (List.mem_cons_of_mem _ hn))]
    apply writeH_read_ne
    have hb := hns b (List.mem_cons_self _ _)
    omega

theorem writeFold_len (g : Heap → ℕ → NpArr) :
    ∀ (ns : List ℕ) (h : Heap),
      (ns.foldl (fun hc n => writeH hc n (g hc n)) h).length = h.length := by
  intro ns
  induction ns with
  | nil => intro h; simp
  | cons b rest ih =>
    intro h
    simp only [List.foldl_cons]
    rw [ih]
    simp [writeH]

theorem interpolateOutputHeap_len (gd : NpArr → NpArr → NpArr → (ℚ × ℚ) → NpVal)
    (h : Heap) (xA yA : ℕ) (valAs : List ℕ) (extent : ℚ × ℚ × ℚ × ℚ) :
    h.length ≤ (interpolateOutputHeap gd h xA yA valAs extent).1.length := by
  simp only [interpolateOutputHeap]
  rw [writeFold_len]
  calc h.length ≤ _ := allocFold_len _ valAs h
  _ ≤ _ := allocFold_len _ _ _

theorem interpolateOutputHeap_read (gd : NpArr → NpArr → NpArr → (ℚ × ℚ) → NpVal)
    (h : Heap) (xA yA : ℕ) (valAs : List ℕ) (extent : ℚ × ℚ × ℚ × ℚ)
    (a : ℕ) (ha : a < h.length) :
    readH (interpolateOutputHeap gd h xA yA valAs extent).1 a = readH h a := by
  simp only [interpolateOutputHeap]
  rw [writeFold_read _ h.length _ _ a ha ?haddrs]
  case haddrs =>
    intro n hn
    calc h.length ≤ _ := allocFold_len _ valAs h
    _ ≤ n := allocFold_addrs _ _ _ n hn
  rw [allocFold_read _ _ _ a (lt_of_lt_of_le ha (allocFold_len _ valAs h))]
  exact allocFold_read _ valAs h a ha

/-- C9: the plotting call mutates none of its input arrays — after
`callHeap` every array object that existed in the heap before the call
(in particular every array of `invar`, `true_outvar`, `pred_outvar`)
still holds exactly its old value; all masking and difference
computation happens on freshly allocated arrays. -/
theorem callHeap_no_mutation (gd : NpArr → NpArr → NpArr → (ℚ × ℚ) → NpVal) (h : Heap)
    (xA yA pT uT vT nuT cT pP uP vP nuP cP a : ℕ) (ha : a < h.length) :
    readH (callHeap gd h xA yA pT uT vT nuT cT pP uP vP nuP cP).1 a = readH h a := by
  simp only [callHeap]
  rw [allocFold_read _ _ _ a ?hlen4]
  case hlen4 =>
    exact lt_of_lt_of_le ha (le_trans (allocH_len _ _)
      (le_trans (allocH_len _ _) (interpolateOutputHeap_len _ _ _ _ _ _)))
  rw [interpolateOutputHeap_read _ _ _ _ _ _ a
    (lt_of_lt_of_le ha (le_trans (allocH_len _ _) (allocH_len _ _)))]
  rw [allocH_read _ _ a (lt_of_lt_of_le ha (allocH_len _ _))]
  exact allocH_read _ _ a ha

/-- Witness for C9: a two-cell heap passed through the call is read back
unchanged at address 0. -/
theorem callHeap_no_mutation_witness :
    readH (callHeap (fun _ _ _ _ => NpVal.nan)
        [NpArr.d1 [NpVal.finite 1], NpArr.d1 [NpVal.finite 2]]
        0 1 0 0 0 0 0 0 0 0 0 0).1 0
      = readH [NpArr.d1 [NpVal.finite 1], NpArr.d1 [NpVal.finite 2]] 0 :=
  callHeap_no_mutation (fun _ _ _ _ => NpVal.nan)
    [NpArr.d1 [NpVal.finite 1], NpArr.d1 [NpVal.finite 2]]
    0 1 0 0 0 0 0 0 0 0 0 0 0 (by simp)
